import Mathlib

/-!
Shallow embedding of `src/b2b_outreach_pipeline.py` (B2B outreach pipeline).

Python strings are modelled as `List Char` (`Str`), so that every string
operation the source uses (lower-casing, strip, startswith/endswith,
substring containment, lexicographic sorting, the e-mail regular
expression) is an executable Lean function that the kernel can evaluate.

External collaborators (the HTTP transport, `tldextract`, the Jinja2
renderer, the SendGrid client) are passed in as function parameters, per
the spec's interface boundary: a registry response oracle, a page-fetch
oracle, a registrable-domain oracle, a render oracle and a delivery
provider oracle.  The file-append log is modelled as a list of messages,
and `time.time()` / `int(time.time())` as an explicit `now : Nat`.
-/

namespace B2B

/-- Python strings, modelled as lists of characters. -/
abbrev Str := List Char

/-- Literal helper: the character list of a Lean string literal. -/
def S (s : String) : Str := s.data

/-- ASCII lower-casing of one character (Python `str.lower` on ASCII). -/
def lowerChar (c : Char) : Char :=
  if 65 ≤ c.toNat ∧ c.toNat ≤ 90 then Char.ofNat (c.toNat + 32) else c

/-- Python `s.lower()` (the source only handles ASCII e-mail data). -/
def pyLower (s : Str) : Str := s.map lowerChar

/-- Whitespace characters stripped by Python `str.strip()`. -/
def isSpaceCh (c : Char) : Bool :=
  c.toNat = 32 || c.toNat = 9 || c.toNat = 10 || c.toNat = 13 || c.toNat = 11 || c.toNat = 12

/-- Python `s.strip()`. -/
def trimS (s : Str) : Str :=
  ((s.dropWhile isSpaceCh).reverse.dropWhile isSpaceCh).reverse

/-- Python `s.startswith(p)`: is `p` a prefix of `s`? -/
def strStartsB (p s : Str) : Bool :=
  match p, s with
  | [], _ => true
  | _ :: _, [] => false
  | a :: ps, b :: ss => decide (a = b) && strStartsB ps ss

/-- Python `s.endswith(p)`: is `p` a suffix of `s`? -/
def strEndsB (s p : Str) : Bool := strStartsB p.reverse s.reverse

/-- Python `needle in hay`: substring containment. -/
def containsSub (needle hay : Str) : Bool :=
  if strStartsB needle hay then true
  else
    match hay with
    | [] => false
    | _ :: t => containsSub needle t

/-- Python `e.split("@")[-1]`: the segment after the last `@` (the whole
string when no `@` occurs). -/
def afterLastAt (e : Str) : Str :=
  (e.reverse.takeWhile (fun c => decide (c ≠ '@'))).reverse

/-- Python string `<=`: lexicographic comparison by code point. -/
def pyStrLeB : Str → Str → Bool
  | [], _ => true
  | _ :: _, [] => false
  | a :: as, b :: bs =>
    if a.toNat < b.toNat then true
    else if b.toNat < a.toNat then false
    else pyStrLeB as bs

/-- Propositional form of `pyStrLeB`, used as the sort relation. -/
def pyStrLe (a b : Str) : Prop := pyStrLeB a b = true

instance : DecidableRel pyStrLe := fun a b => by unfold pyStrLe; infer_instance

/-- Decimal rendering of a natural number (Python `f"..."` on an int). -/
def natToStr (n : Nat) : Str := (Nat.repr n).data

/-- Python `".".join(p for p in parts if p)`. -/
def joinDot (parts : List Str) : Str :=
  List.intercalate (S ".") (parts.filter (fun p => !p.isEmpty))

/-! ## The e-mail regular expression

`EMAIL_REGEX = re.compile(r"[A-Za-z0-9._%+-]+@[A-Za-z0-9.-]+\.[A-Za-z]\x7b2,\x7d")`,
scanned over the page text with `finditer` (leftmost, non-overlapping,
greedy-with-backtracking matches). -/

/-- Character class `[A-Za-z]`. -/
def isACh (c : Char) : Bool :=
  (65 ≤ c.toNat && c.toNat ≤ 90) || (97 ≤ c.toNat && c.toNat ≤ 122)

/-- Character class `[0-9]`. -/
def isDigCh (c : Char) : Bool := 48 ≤ c.toNat && c.toNat ≤ 57

/-- Character class `[A-Za-z0-9._%+-]` (the local part). -/
def isLCh (c : Char) : Bool :=
  isACh c || isDigCh c || decide (c = '.') || decide (c = '_') || decide (c = '%') ||
    decide (c = '+') || decide (c = '-')

/-- Character class `[A-Za-z0-9.-]` (the raw domain part). -/
def isDCh (c : Char) : Bool := isACh c || isDigCh c || decide (c = '.') || decide (c = '-')

/-- Within the maximal `[A-Za-z0-9.-]` run, check whether the dot of the
regex can sit at index `j`: the run must carry a literal `.` there
followed by at least two letters.  Returns the greedy `[A-Za-z]`-run
after the dot. -/
def domSplitCheck (run : Str) (j : Nat) : Option Str :=
  match run.drop j with
  | '.' :: rest =>
    let alpha := rest.takeWhile isACh
    if 2 ≤ alpha.length then some alpha else none
  | _ => none

/-- Backtracking of the greedy `[A-Za-z0-9.-]+` part: try the dot at the
largest index first, stopping at index `1` (the `+` needs
at least one character before the dot). -/
def findDomSplit (run : Str) : Nat → Option (Nat × Str)
  | 0 => none
  | j + 1 =>
    match domSplitCheck run (j + 1) with
    | some alpha => some (j + 1, alpha)
    | none => findDomSplit run j

/-- Attempt an `EMAIL_REGEX` match anchored at the head of `s`.  On
success, returns the matched e-mail and the remaining input after the
match (for non-overlapping continuation). -/
def emailMatchAt (s : Str) : Option (Str × Str) :=
  let loc := s.takeWhile isLCh
  let r1 := s.dropWhile isLCh
  if loc.isEmpty then none
  else
    match r1 with
    | '@' :: r2 =>
      let run := r2.takeWhile isDCh
      let r3 := r2.dropWhile isDCh
      match findDomSplit run run.length with
      | some (j, alpha) =>
        some (loc ++ '@' :: (run.take j ++ '.' :: alpha),
              run.drop (j + 1 + alpha.length) ++ r3)
      | none => none
    | _ => none

/-- The `finditer` scan: at each position try a match; on success emit it
and continue after the match, otherwise advance one character.  `fuel`
is an upper bound on the number of scan steps (each consumes at least
one character, so `s.length` suffices). -/
def emailScan : Nat → Str → List Str
  | 0, _ => []
  | fuel + 1, s =>
    match s with
    | [] => []
    | _ :: t =>
      match emailMatchAt s with
      | some (em, rest) => em :: emailScan fuel rest
      | none => emailScan fuel t

/-- Domains whose addresses are discarded (`extract_emails_from_html`). -/
def privateDomains : List Str :=
  [S "@gmail.com", S "@outlook.com", S "@hotmail.com", S "@live.com"]

/-- `extract_emails_from_html`: regex-scan the raw text, lower-case each
match, deduplicate (Python `set`), drop well-known private providers,
and return the sorted list (Python `sorted`). -/
def extract_emails_from_html (html : Str) : List Str :=
  if html.isEmpty then []
  else
    let found := ((emailScan html.length html).map pyLower).dedup
    let kept := found.filter (fun e => !(privateDomains.any (fun d => strEndsB e d)))
    List.insertionSort pyStrLe kept

/-! ## Crawling (`normalize_url`, `candidate_contact_paths`, `crawl_for_email`) -/

/-- `normalize_url`: strip, reject empty, default the scheme, strip
trailing slashes. -/
def normalize_url (url : Str) : Option Str :=
  if url.isEmpty then none
  else
    let u := trimS url
    if u.isEmpty then none
    else
      let u2 := if strStartsB (S "http") u then u else S "http://" ++ u
      some (u2.reverse.dropWhile (fun c => decide (c = '/'))).reverse

/-- `candidate_contact_paths()`. -/
def candidate_contact_paths : List Str :=
  [S "/", S "/kontakt", S "/om-oss", S "/contact", S "/about", S "/kontakt-oss"]

/-- `MAX_PAGES_PER_SITE` (line 58 of the source). -/
def MAX_PAGES_PER_SITE : Nat := 3

/-- The generic-contact markers of the ranking key, exactly as the source
writes them: `("kontakt@", "post@", "info@", "booking@", "bestilling@")`. -/
def preferredMarkers : List Str :=
  [S "kontakt@", S "post@", S "info@", S "booking@", S "bestilling@"]

/-- First component of the Python sort key
`(not any(k in e for k in (...)), len(e))`: `false` when the address
contains a preferred marker as a substring. -/
def notPrefFlag (e : Str) : Bool := !(preferredMarkers.any (fun k => containsSub k e))

/-- The ranking relation of `sorted(emails, key=lambda e: (not any(...), len(e)))`:
lexicographic on (marker flag, length). -/
def rankLe (a b : Str) : Prop :=
  (notPrefFlag a = false ∧ notPrefFlag b = true) ∨
    (notPrefFlag a = notPrefFlag b ∧ a.length ≤ b.length)

instance : DecidableRel rankLe := fun a b => by unfold rankLe; infer_instance

instance : IsTotal Str rankLe := by
  constructor
  intro a b
  unfold rankLe
  cases h1 : notPrefFlag a <;> cases h2 : notPrefFlag b
  · rcases Nat.le_total a.length b.length with h | h
    · exact Or.inl (Or.inr ⟨rfl, h⟩)
    · exact Or.inr (Or.inr ⟨rfl, h⟩)
  · exact Or.inl (Or.inl ⟨rfl, rfl⟩)
  · exact Or.inr (Or.inl ⟨rfl, rfl⟩)
  · rcases Nat.le_total a.length b.length with h | h
    · exact Or.inl (Or.inr ⟨rfl, h⟩)
    · exact Or.inr (Or.inr ⟨rfl, h⟩)

instance : IsTrans Str rankLe := by
  constructor
  intro a b c hab hbc
  unfold rankLe at *
  rcases hab with ⟨h1, h2⟩ | ⟨h1, h2⟩ <;> rcases hbc with ⟨h3, h4⟩ | ⟨h3, h4⟩
  · rw [h2] at h3; cases h3
  · exact Or.inl ⟨h1, h3.symm.trans h2⟩
  · exact Or.inl ⟨h1.trans h3, h4⟩
  · exact Or.inr ⟨h1.trans h3, Nat.le_trans h2 h4⟩

/-- Modelled from the spec: the local part of an address (everything
before the first `@`), used by the spec's description of the ranking
("local-part membership in a preferred set"). -/
def localPart (e : Str) : Str := e.takeWhile (fun c => decide (c ≠ '@'))

/-- Modelled from the spec: the preferred generic-contact aliases as
local parts, the set the spec's ranking description refers to. -/
def preferredLocalParts : List Str :=
  [S "kontakt", S "post", S "info", S "booking", S "bestilling"]

/-- The per-page filter of `crawl_for_email` (line 249): keep addresses
that end in `"@" + domain`, or whose part after the last `@` ends in
`domain` (note: a bare `endswith`, with no dot boundary). -/
def domainFilter (domain e : Str) : Bool :=
  strEndsB e ('@' :: domain) || strEndsB (afterLastAt e) domain

/-- The qualifying addresses of one fetched page. -/
def qualify (domain html : Str) : List Str :=
  (extract_emails_from_html html).filter (domainFilter domain)

/-- The registrable domain as `crawl_for_email` computes it from the
`tldextract` oracle: `".".join(p for p in [parts.domain, parts.suffix] if p)`. -/
def siteDomain (tldx : Str → Str × Str) (base : Str) : Str :=
  joinDot [(tldx base).1, (tldx base).2]

/-- The page loop of `crawl_for_email`, instrumented with the list of
URLs passed to `fetch`.  A falsy page (`None` or `""`) is skipped; the
first page with a qualifying address ends the crawl with the top-ranked
one (`preferred[0]`). -/
def crawlGo (fetchO : Str → Option Str) (base domain : Str) :
    List Str → List Str → Option Str × List Str
  | [], fetched => (none, fetched)
  | p :: ps, fetched =>
    let url := base ++ p
    let fetched' := fetched ++ [url]
    match fetchO url with
    | none => crawlGo fetchO base domain ps fetched'
    | some html =>
      if html.isEmpty then crawlGo fetchO base domain ps fetched'
      else
        let emails := qualify domain html
        if emails.isEmpty then crawlGo fetchO base domain ps fetched'
        else ((List.insertionSort rankLe emails).head?, fetched')

/-- `crawl_for_email`, with the `tldextract` and `fetch` collaborators as
oracles; the second component is the list of fetched URLs. -/
def crawl_for_email (tldx : Str → Str × Str) (fetchO : Str → Option Str)
    (website : Str) : Option Str × List Str :=
  match normalize_url website with
  | none => (none, [])
  | some base =>
    crawlGo fetchO base (siteDomain tldx base)
      (candidate_contact_paths.take MAX_PAGES_PER_SITE) []

/-! ## Registry ingestion (`fetch_from_brreg`) -/

/-- The `Company` dataclass. -/
structure Company where
  orgnr : Str
  name : Str
  municipality : Str
  nace : Str
  website : Option Str
  email : Option Str
  source : Str
deriving DecidableEq

/-- One raw registry entity, with the fields the source reads; a missing
field is the empty string, matching the `.get(..., "")` defaulting. -/
structure BrregEntity where
  organisasjonsnummer : Str
  navn : Str
  kommunenummer : Str
  nace : Str
  hjemmeside : Str
deriving DecidableEq

/-- One registry page: the embedded entity list and the optional
`page.totalPages` field of the response. -/
structure BrregPage where
  enheter : List BrregEntity
  totalPages : Option Nat
deriving DecidableEq

/-- Mapping of one raw entity to a `Company` (lines 173-181):
`str(...)` of the identifier, `.strip()` of the name, `None` website
when the homepage is empty, provenance `"brreg"`. -/
def entityToCompany (e : BrregEntity) : Company :=
  { orgnr := e.organisasjonsnummer, name := trimS e.navn,
    municipality := e.kommunenummer, nace := e.nace,
    website := if e.hjemmeside.isEmpty then none else some e.hjemmeside,
    email := none, source := S "brreg" }

/-- The industry filter of line 179: a record is dropped exactly when the
prefix set is non-empty, its code is non-empty, and no prefix matches
(Python truthiness of `nace_prefixes and nace and not any(...)`). -/
def naceFilteredOut (nacePrefixes : List Str) (e : BrregEntity) : Bool :=
  !nacePrefixes.isEmpty && !e.nace.isEmpty &&
    !(nacePrefixes.any (fun p => strStartsB p e.nace))

/-- The `Company` records one page contributes. -/
def pageCompanies (nacePrefixes : List Str) (ents : List BrregEntity) : List Company :=
  ents.filterMap (fun e => if naceFilteredOut nacePrefixes e then none else some (entityToCompany e))

/-- The page signature of line 162: the sorted tuple of raw identifiers. -/
def pageSig (ents : List BrregEntity) : List Str :=
  List.insertionSort pyStrLe (ents.map (·.organisasjonsnummer))

/-- State of the per-municipality pagination loop. -/
structure FetchSt where
  page : Nat
  seen : List (List Str)
  acc : List Company
deriving DecidableEq

/-- One iteration of the `while True` pagination loop, in source order:
page-cap check, fetch (an exception ends the loop), repeated-signature
check, empty-page check, map-and-filter, `totalPages` check.
`Sum.inl` is a `break` carrying the harvest, `Sum.inr` the next state. -/
def brregStep (nacePrefixes : List Str) (maxPages : Option Nat)
    (resp : Nat → Option BrregPage) (st : FetchSt) : List Company ⊕ FetchSt :=
  if (match maxPages with | some m => decide (m ≤ st.page) | none => false) then .inl st.acc
  else
    match resp st.page with
    | none => .inl st.acc
    | some pg =>
      let sig := pageSig pg.enheter
      if sig ∈ st.seen then .inl st.acc
      else
        let seen' := sig :: st.seen
        if pg.enheter.isEmpty then .inl st.acc
        else
          let acc' := st.acc ++ pageCompanies nacePrefixes pg.enheter
          let page' := st.page + 1
          match pg.totalPages with
          | some t => if t ≤ page' then .inl acc' else .inr ⟨page', seen', acc'⟩
          | none => .inr ⟨page', seen', acc'⟩

/-- Fuel-indexed run of the pagination loop for one municipality.  The
boolean is `true` when the loop reached one of its own stopping
conditions within `fuel` iterations (the Python loop has no fuel; a
`false` second component means the model ran out of fuel while the
loop was still going). -/
def brregLoop (nacePrefixes : List Str) (maxPages : Option Nat)
    (resp : Nat → Option BrregPage) : Nat → FetchSt → List Company × Bool
  | 0, st => (st.acc, false)
  | fuel + 1, st =>
    match brregStep nacePrefixes maxPages resp st with
    | .inl cs => (cs, true)
    | .inr st' => brregLoop nacePrefixes maxPages resp fuel st'

/-- The starting state of each municipality's loop. -/
def fetchInit : FetchSt := ⟨0, [], []⟩

/-- `fetch_from_brreg`: iterate the pagination loop over the
municipalities, accumulating all companies.  `resp mu p` is the oracle
for the HTTP GET of page `p` of municipality `mu` (`none` models a
transport/parse exception). -/
def fetch_from_brreg (municipality_numbers : List Str) (nace_prefixes : List Str)
    (maxPages : Option Nat) (resp : Str → Nat → Option BrregPage) (fuel : Nat) :
    List Company :=
  municipality_numbers.foldl
    (fun acc mu => acc ++ (brregLoop nace_prefixes maxPages (resp mu) fuel fetchInit).1) []

/-! ## Persistence (`upsert_companies` and the `companies` table) -/

/-- One row of the `companies` table. -/
structure Row where
  orgnr : Str
  name : Str
  municipality : Str
  nace : Str
  website : Option Str
  email : Option Str
  source : Str
  last_seen : Nat
deriving DecidableEq

/-- A row with its `last_seen` zeroed, for comparisons that ignore the
timestamp. -/
def zeroTs (r : Row) : Row :=
  { r with last_seen := 0 }

/-- The `ON CONFLICT(orgnr) DO UPDATE` row (lines 270-277): name,
municipality, nace, source and last_seen are overwritten from the
excluded record, website and email use
`COALESCE(excluded.x, companies.x)`. -/
def updatedRow (r : Row) (c : Company) (now : Nat) : Row :=
  { orgnr := r.orgnr, name := c.name, municipality := c.municipality,
    nace := c.nace, website := c.website.or r.website,
    email := c.email.or r.email, source := c.source, last_seen := now }

/-- The freshly inserted row for an absent key. -/
def newRow (c : Company) (now : Nat) : Row :=
  { orgnr := c.orgnr, name := c.name, municipality := c.municipality,
    nace := c.nace, website := c.website, email := c.email,
    source := c.source, last_seen := now }

/-- Does the table hold a row for this key? -/
def containsKey (db : List Row) (k : Str) : Bool :=
  db.any (fun r => decide (r.orgnr = k))

/-- The effect of one upsert statement on one row of the table: the
conflict update when the key matches, identity otherwise. -/
def updIf (c : Company) (now : Nat) (r : Row) : Row :=
  if r.orgnr = c.orgnr then updatedRow r c now else r

/-- A single `INSERT ... ON CONFLICT(orgnr) DO UPDATE` statement. -/
def upsert1 (db : List Row) (c : Company) (now : Nat) : List Row :=
  if containsKey db c.orgnr then db.map (updIf c now) else db ++ [newRow c now]

/-- `upsert_companies`: the statement executed for each record in order,
all with the same `now = int(time.time())`. -/
def upsert_companies (db : List Row) (companies : List Company) (now : Nat) : List Row :=
  companies.foldl (fun d c => upsert1 d c now) db

/-- Row lookup by identity key. -/
def findRow (db : List Row) (k : Str) : Option Row :=
  db.find? (fun r => decide (r.orgnr = k))

/-! ## Campaign dispatch (`send_campaign` and friends) -/

/-- One row of the `sent` table (`email` is the case-folded key). -/
structure SentRow where
  email : Str
  company_orgnr : Str
  sent_at : Nat
deriving DecidableEq

/-- One candidate row as the dispatcher's SELECT returns it. -/
structure SendRow where
  orgnr : Str
  name : Str
  municipality : Str
  website : Option Str
  email : Str
deriving DecidableEq

/-- Result of a campaign run: the `sent` table, the log lines, and the
list of recipients for which a delivery call was issued. -/
structure RunResult where
  sent : List SentRow
  log : List Str
  deliveries : List Str
deriving DecidableEq

/-- `already_unsubscribed`: a row of `unsubscribed` equal to the
case-folded probe exists (`WHERE email=?` with `email.lower()`). -/
def already_unsubscribed (unsub : List Str) (email : Str) : Bool :=
  unsub.any (fun u => decide (u = pyLower email))

/-- `mark_sent`: `INSERT OR REPLACE INTO sent` keyed on the case-folded
address — the conflicting row, if any, is replaced. -/
def mark_sent (sent : List SentRow) (email orgnr : Str) (now : Nat) : List SentRow :=
  ⟨pyLower email, orgnr, now⟩ :: sent.filter (fun s => decide (s.email ≠ pyLower email))

/-- Sent-table lookup by (case-folded) address. -/
def findSent (sent : List SentRow) (e : Str) : Option SentRow :=
  sent.find? (fun s => decide (s.email = e))

/-- The candidate SELECT of `send_campaign` (lines 355-364): companies
with a non-null email and no `sent` row matching case-insensitively,
up to `LIMIT ?`. -/
def select_sendable (companies : List Company) (sent : List SentRow) (limit : Nat) :
    List Company :=
  (companies.filter (fun c =>
    match c.email with
    | none => false
    | some e => !(sent.any (fun s => decide (pyLower e = pyLower s.email))))).take limit

/-- The tuple the SELECT projects for each candidate company. -/
def toSendRow (c : Company) : SendRow :=
  { orgnr := c.orgnr, name := c.name, municipality := c.municipality,
    website := c.website, email := c.email.getD [] }

/-- `send_via_sendgrid`: the provider oracle either throws (transport
error) or returns a status and body; a status `>= 300` is raised as
`RuntimeError(f"SendGrid error: ...")` (lines 330-333). -/
def send_via_sendgrid (provider : Str → Str → Except Str (Nat × Str))
    (toEmail body : Str) : Except Str Unit :=
  match provider toEmail body with
  | .error e => .error e
  | .ok (status, rbody) =>
    if 300 ≤ status then
      .error (S "SendGrid error: " ++ natToStr status ++ S " " ++ rbody)
    else .ok ()

/-- The rendered body for one candidate: the template context is
(company_name, municipality, website or "", email). -/
def renderOf (render : Str → Str → Str → Str → Str) (r : SendRow) : Str :=
  render r.name r.municipality (r.website.getD []) r.email

/-- The per-candidate body of `send_campaign`'s loop (lines 367-383):
skip if unsubscribed; otherwise render, attempt delivery; on success
`mark_sent` and log `SENT`, on any exception log `ERROR` and continue. -/
def campaignStep (provider : Str → Str → Except Str (Nat × Str))
    (render : Str → Str → Str → Str → Str) (unsub : List Str) (now : Nat)
    (st : RunResult) (r : SendRow) : RunResult :=
  if already_unsubscribed unsub r.email then st
  else
    let st1 : RunResult := { st with deliveries := st.deliveries ++ [r.email] }
    match send_via_sendgrid provider r.email (renderOf render r) with
    | .ok _ =>
      { st1 with sent := mark_sent st1.sent r.email r.orgnr now,
                 log := st1.log ++ [S "SENT to " ++ r.email ++ S " (" ++ r.name ++ S ")"] }
    | .error msg =>
      { st1 with log := st1.log ++ [S "ERROR sending to " ++ r.email ++ S ": " ++ msg] }

/-- The dispatcher's loop over an arbitrary candidate batch. -/
def campaignRun (provider : Str → Str → Except Str (Nat × Str))
    (render : Str → Str → Str → Str → Str) (unsub : List Str) (now : Nat)
    (rows : List SendRow) (sent0 : List SentRow) : RunResult :=
  rows.foldl (campaignStep provider render unsub now) ⟨sent0, [], []⟩

/-- `send_campaign`: select the sendable candidates from the store, then
run the dispatch loop over them. -/
def send_campaign (provider : Str → Str → Except Str (Nat × Str))
    (render : Str → Str → Str → Str → Str) (companies : List Company)
    (sent0 : List SentRow) (unsub : List Str) (now limit : Nat) : RunResult :=
  campaignRun provider render unsub now
    ((select_sendable companies sent0 limit).map toSendRow) sent0

/-! ## Derived notions used by the analysis of `upsert_companies` -/

/-- The effect of a whole record list on one already-present row. -/
def applyAll (L : List Company) (now : Nat) (r : Row) : Row :=
  L.foldl (fun row c => updIf c now row) r

/-- The records of `L` that hit key `k`, in order. -/
def matching (L : List Company) (k : Str) : List Company :=
  L.filter (fun c => decide (c.orgnr = k))

/-- The website the coalescing chain of `L` leaves when starting from
null: the last non-null website of `L`, if any. -/
def chainW (L : List Company) : Option Str :=
  L.foldl (fun a c => c.website.or a) none

/-- Same as `chainW` for the email column. -/
def chainE (L : List Company) : Option Str :=
  L.foldl (fun a c => c.email.or a) none

/-- Placeholder company used as the (never relevant) default of
`List.getLastD` on non-empty lists. -/
def dummyCompany : Company :=
  { orgnr := [], name := [], municipality := [], nace := [],
    website := none, email := none, source := [] }

/-! ## Concrete fixtures used by witnesses and counterexamples -/

/-- A `tldextract` oracle for a site whose registrable domain is `x.no`. -/
def tld0 : Str → Str × Str := fun _ => (S "x", S "no")

/-- A fetch oracle whose front page lists three same-domain addresses
(the ranking scenario of the spec). -/
def fetchRank : Str → Option Str := fun u =>
  if u = S "http://x.no/" then some (S "sales@x.no post@x.no kontakt@x.no") else none

/-- A fetch oracle whose front page holds an address with a preferred
local part (`kontakt`) next to a shorter address whose local part is not
in the preferred set but contains the marker `post@` as a substring. -/
def fetchSubs : Str → Option Str := fun u =>
  if u = S "http://x.no/" then some (S "kontakt@x.no xpost@x.no") else none

/-- A fetch oracle whose front page only holds an address at the
unrelated domain `notx.no`, which shares the bare suffix `x.no`. -/
def fetchNotx : Str → Option Str := fun u =>
  if u = S "http://x.no/" then some (S "hello post@notx.no bye") else none

/-- A fetch oracle for which every request fails. -/
def noFetch : Str → Option Str := fun _ => none

/-- A delivery provider that throws for `fail@x.no` and accepts
everything else with status 202. -/
def provider0 : Str → Str → Except Str (Nat × Str) := fun toEmail _ =>
  if toEmail = S "fail@x.no" then .error (S "boom") else .ok (202, S "")

/-- A fixed template renderer. -/
def render0 : Str → Str → Str → Str → Str := fun _ _ _ _ => S "hei"

/-- A candidate whose delivery call throws under `provider0`. -/
def fRow : SendRow :=
  { orgnr := S "1", name := S "A", municipality := S "0301", website := none,
    email := S "fail@x.no" }

/-- A candidate whose delivery call succeeds under `provider0`. -/
def okRow : SendRow :=
  { orgnr := S "2", name := S "B", municipality := S "0301", website := none,
    email := S "ok@e.no" }

/-- A two-candidate batch: the first recipient's delivery throws, the
second succeeds. -/
def rows0 : List SendRow := [fRow, okRow]

/-- An unsubscribed table holding the (case-folded) address `c@d.no`. -/
def unsub1 : List Str := [S "c@d.no"]

/-- Two companies with e-mail, the first of which is unsubscribed under
case-folding. -/
def companies1 : List Company :=
  [{ orgnr := S "1", name := S "A", municipality := S "0301", nace := S "56",
     website := none, email := some (S "C@D.no"), source := S "brreg" },
   { orgnr := S "2", name := S "B", municipality := S "0301", nace := S "56",
     website := none, email := some (S "ok@e.no"), source := S "brreg" }]

/-- A company whose address `a@b.no` already has a sent record. -/
def compSent : Company :=
  { orgnr := S "1", name := S "A", municipality := S "0301", nace := S "56",
    website := none, email := some (S "a@b.no"), source := S "brreg" }

/-- The sent table holding exactly `a@b.no`. -/
def sentAB : List SentRow := [{ email := S "a@b.no", company_orgnr := S "1", sent_at := 0 }]

/-- An existing company row with known website and email. -/
def wRow : Row :=
  { orgnr := S "1", name := S "Old", municipality := S "0301", nace := S "56",
    website := some (S "x.no"), email := some (S "a@x.no"), source := S "brreg",
    last_seen := 0 }

/-- A fresher record for the same key carrying null website and email. -/
def wComp : Company :=
  { orgnr := S "1", name := S "New", municipality := S "0301", nace := S "56.1",
    website := none, email := none, source := S "brreg" }

/-- A registry oracle whose single page holds one entity with an empty
industry code (a malformed record, tolerated by the source). -/
def cexResp4 : Str → Nat → Option BrregPage := fun _ p =>
  if p = 0 then
    some { enheter := [{ organisasjonsnummer := S "999", navn := S "Acme",
                         kommunenummer := S "0301", nace := S "", hjemmeside := S "" }],
           totalPages := some 1 }
  else none

/-- A registry oracle whose single page holds one entity with industry
code `56.1`. -/
def okResp4 : Str → Nat → Option BrregPage := fun _ p =>
  if p = 0 then
    some { enheter := [{ organisasjonsnummer := S "998", navn := S "Bistro",
                         kommunenummer := S "0301", nace := S "56.1", hjemmeside := S "" }],
           totalPages := some 1 }
  else none

/-- The entity fetched by `okResp4`, as a `Company`. -/
def compB : Company :=
  { orgnr := S "998", name := S "Bistro", municipality := S "0301", nace := S "56.1",
    website := none, email := none, source := S "brreg" }

/-- A one-entity registry page, used for the no-filtering conjunct. -/
def ent998 : BrregEntity :=
  { organisasjonsnummer := S "998", navn := S "Bistro", kommunenummer := S "0301",
    nace := S "56.1", hjemmeside := S "" }

/-- Page `k` of the adversarial registry: non-empty, distinct from every
other page, reporting no total-page count. -/
def advPage (k : Nat) : BrregPage :=
  { enheter := [{ organisasjonsnummer := List.replicate (k + 1) 'a', navn := S "n",
                  kommunenummer := S "m", nace := S "", hjemmeside := S "" }],
    totalPages := none }

/-- An adversarial registry oracle: every page is non-empty, distinct
from all other pages, and reports no total-page count. -/
def advResp : Nat → Option BrregPage := fun k => some (advPage k)

/-- A registry oracle whose page 1 errors out. -/
def respW : Nat → Option BrregPage := fun k =>
  if k = 0 then
    some { enheter := [{ organisasjonsnummer := S "5", navn := S "n",
                         kommunenummer := S "m", nace := S "", hjemmeside := S "" }],
           totalPages := none }
  else none

/-- A non-empty page with no total-page count, echoed forever by
`repResp`. -/
def repPage : BrregPage :=
  { enheter := [{ organisasjonsnummer := S "7", navn := S "n",
                  kommunenummer := S "m", nace := S "", hjemmeside := S "" }],
    totalPages := none }

/-- A registry oracle that echoes the same page forever (the repeating
API the source's signature safeguard is written for). -/
def repResp : Nat → Option BrregPage := fun _ => some repPage

/-- A registry oracle whose page 0 is non-empty but reports
`totalPages = 1`. -/
def totResp : Nat → Option BrregPage := fun _ =>
  some { enheter := [{ organisasjonsnummer := S "8", navn := S "n",
                       kommunenummer := S "m", nace := S "", hjemmeside := S "" }],
         totalPages := some 1 }

/-! ## General helper lemmas -/

theorem find?_filter_of_imp {α : Type} (l : List α) (p q : α → Bool)
    (h : ∀ a, p a = true → q a = true) :
    List.find? p (l.filter q) = List.find? p l := by
  induction l with
  | nil => rfl
  | cons a t ih =>
    by_cases hq : q a = true
    · rw [List.filter_cons_of_pos hq]
      cases hp : p a with
      | true => simp [List.find?_cons, hp]
      | false => simp [List.find?_cons, hp, ih]
    · have hq' : q a = false := by simpa using hq
      have hp' : p a = false := by
        by_contra hc
        exact hq (h a (by simpa using hc))
      rw [List.filter_cons_of_neg (by simp [hq'])]
      simp [List.find?_cons, hp', ih]

theorem find?_map_keyfix {α : Type} (l : List α) (p : α → Bool) (f : α → α)
    (h : ∀ a, p (f a) = p a) :
    List.find? p (l.map f) = (List.find? p l).map f := by
  induction l with
  | nil => rfl
  | cons a t ih =>
    rw [List.map_cons]
    cases hp : p a with
    | true => simp [List.find?_cons, hp, h a]
    | false => simp [List.find?_cons, hp, h a, ih]

/-! ## C7: the sendable selection -/

/-- C7.  For every store state and every limit, the dispatcher's sendable
selection returns only companies whose email is non-null and has no
corresponding sent record (matched case-insensitively), returns at most
`limit` rows, and excludes every company whose address has a sent record
(whether or not it has an unsubscribed record — the selection never
consults the unsubscribed table). -/
theorem select_sendable_spec (companies : List Company) (sent : List SentRow) (limit : Nat) :
    (select_sendable companies sent limit).length ≤ limit ∧
    (∀ c ∈ select_sendable companies sent limit,
      c ∈ companies ∧ ∃ e, c.email = some e ∧ ∀ s ∈ sent, pyLower e ≠ pyLower s.email) ∧
    (∀ c ∈ companies, (∃ e s, c.email = some e ∧ s ∈ sent ∧ pyLower e = pyLower s.email) →
      c ∉ select_sendable companies sent limit) := by
  refine ⟨List.length_take_le _ _, ?_, ?_⟩
  · intro c hc
    have hc' : c ∈ (companies.filter _) := (List.take_sublist _ _).subset hc
    have hmem := List.mem_filter.mp hc'
    refine ⟨hmem.1, ?_⟩
    have hp := hmem.2
    cases he : c.email with
    | none => rw [he] at hp; simp at hp
    | some e =>
      refine ⟨e, rfl, ?_⟩
      intro s hs hcontra
      rw [he] at hp
      simp only [Bool.not_eq_true'] at hp
      have := List.any_eq_false.mp hp s hs
      simp [hcontra] at this
  · intro c _ ⟨e, s, he, hs, heq⟩ hsel
    have hc' : c ∈ (companies.filter _) := (List.take_sublist _ _).subset hsel
    have hp := (List.mem_filter.mp hc').2
    rw [he] at hp
    simp only [Bool.not_eq_true'] at hp
    have := List.any_eq_false.mp hp s hs
    simp [heq] at this

/-- Witness for C7, realising the spec's scenario: `a@b.no` has a sent
record and no unsubscribed record, and the selection excludes it. -/
theorem select_sendable_spec_witness :
    compSent ∈ [compSent] ∧ compSent ∉ select_sendable [compSent] sentAB 80 :=
  ⟨by decide,
   (select_sendable_spec [compSent] sentAB 80).2.2 compSent (by decide)
     ⟨S "a@b.no", { email := S "a@b.no", company_orgnr := S "1", sent_at := 0 },
      by decide, by decide, by decide⟩⟩

/-! ## C2: the coalescing upsert -/

/-- C2.  Upserting a record whose key is already present overwrites
name, region, industry, provenance and last-observed unconditionally,
while website and email are coalesced: a null new value never overwrites
an existing non-null value, and a non-null new value always overwrites. -/
theorem upsert_companies_coalesce (db : List Row) (c : Company) (now : Nat) (r : Row)
    (h : findRow db c.orgnr = some r) :
    ∃ r', findRow (upsert_companies db [c] now) c.orgnr = some r' ∧
      r' = updatedRow r c now ∧
      r'.name = c.name ∧ r'.municipality = c.municipality ∧ r'.nace = c.nace ∧
      r'.source = c.source ∧ r'.last_seen = now ∧
      (c.website = none → r'.website = r.website) ∧
      (∀ w, c.website = some w → r'.website = some w) ∧
      (c.email = none → r'.email = r.email) ∧
      (∀ v, c.email = some v → r'.email = some v) := by
  have hkey : containsKey db c.orgnr = true := by
    have hmem := List.mem_of_find?_eq_some h
    have hpred := List.find?_some h
    exact List.any_eq_true.mpr ⟨r, hmem, hpred⟩
  have hup : upsert_companies db [c] now = db.map (updIf c now) := by
    simp [upsert_companies, upsert1, hkey]
  have hfind : findRow (upsert_companies db [c] now) c.orgnr
      = some (updIf c now r) := by
    rw [hup]
    unfold findRow at h ⊢
    rw [find?_map_keyfix _ _ _ ?_, h]
    · rfl
    · intro a
      by_cases ha : a.orgnr = c.orgnr <;> simp [updIf, ha, updatedRow]
  have hr : r.orgnr = c.orgnr := by simpa using List.find?_some h
  have hupd : updIf c now r = updatedRow r c now := by
    unfold updIf
    rw [if_pos hr]
  rw [hupd] at hfind
  refine ⟨updatedRow r c now, hfind, rfl, rfl, rfl, rfl, rfl, rfl, ?_, ?_, ?_, ?_⟩
  · intro hw; simp [updatedRow, hw, Option.none_or]
  · intro w hw; simp [updatedRow, hw]
  · intro hv; simp [updatedRow, hv, Option.none_or]
  · intro v hv; simp [updatedRow, hv]

/-! ## C10: the page budget of the crawler -/

theorem crawlGo_fetched (fetchO : Str → Option Str) (base domain : Str) :
    ∀ (paths : List Str) (fetched : List Str),
      ∃ k, k ≤ paths.length ∧
        (crawlGo fetchO base domain paths fetched).2
          = fetched ++ (paths.take k).map (fun p => base ++ p) := by
  intro paths
  induction paths with
  | nil =>
    intro fetched
    exact ⟨0, Nat.le_refl 0, by simp [crawlGo]⟩
  | cons p ps ih =>
    intro fetched
    cases hf : fetchO (base ++ p) with
    | none =>
      obtain ⟨k, hk, he⟩ := ih (fetched ++ [base ++ p])
      refine ⟨k + 1, by simpa using Nat.succ_le_succ hk, ?_⟩
      simp only [crawlGo, hf]
      simpa [List.append_assoc] using he
    | some html =>
      simp only [crawlGo, hf]
      split_ifs with hh hq
      · obtain ⟨k, hk, he⟩ := ih (fetched ++ [base ++ p])
        exact ⟨k + 1, by simpa using Nat.succ_le_succ hk,
          by simpa [List.append_assoc] using he⟩
      · obtain ⟨k, hk, he⟩ := ih (fetched ++ [base ++ p])
        exact ⟨k + 1, by simpa using Nat.succ_le_succ hk,
          by simpa [List.append_assoc] using he⟩
      · exact ⟨1, by simp, by simp⟩

/-- C10.  `crawl_for_email` fetches at most `MAX_PAGES_PER_SITE` (3)
pages, and the URLs it fetches are the base joined with a prefix of the
candidate path list; under the default cap only `/`, `/kontakt` and
`/om-oss` can be visited, so `/contact`, `/about` and `/kontakt-oss`
are never fetched. -/
theorem crawl_for_email_page_budget (tldx : Str → Str × Str) (fetchO : Str → Option Str)
    (website : Str) :
    (crawl_for_email tldx fetchO website).2.length ≤ MAX_PAGES_PER_SITE ∧
    (∀ base, normalize_url website = some base →
      (∃ k, (crawl_for_email tldx fetchO website).2
          = ((candidate_contact_paths.take MAX_PAGES_PER_SITE).take k).map (fun p => base ++ p)) ∧
      (∀ u ∈ (crawl_for_email tldx fetchO website).2,
        u = base ++ S "/" ∨ u = base ++ S "/kontakt" ∨ u = base ++ S "/om-oss") ∧
      base ++ S "/contact" ∉ (crawl_for_email tldx fetchO website).2 ∧
      base ++ S "/about" ∉ (crawl_for_email tldx fetchO website).2 ∧
      base ++ S "/kontakt-oss" ∉ (crawl_for_email tldx fetchO website).2) := by
  cases hn : normalize_url website with
  | none =>
    constructor
    · simp [crawl_for_email, hn, MAX_PAGES_PER_SITE]
    · intro base hb
      simp at hb
  | some base0 =>
    have hcrawl : (crawl_for_email tldx fetchO website).2
        = (crawlGo fetchO base0 (siteDomain tldx base0)
            (candidate_contact_paths.take MAX_PAGES_PER_SITE) []).2 := by
      simp [crawl_for_email, hn]
    obtain ⟨k, hk, he⟩ := crawlGo_fetched fetchO base0 (siteDomain tldx base0)
        (candidate_contact_paths.take MAX_PAGES_PER_SITE) []
    rw [List.nil_append] at he
    have hall : ∀ u ∈ (crawl_for_email tldx fetchO website).2,
        u = base0 ++ S "/" ∨ u = base0 ++ S "/kontakt" ∨ u = base0 ++ S "/om-oss" := by
      intro u hu
      rw [hcrawl, he] at hu
      obtain ⟨p, hp, rfl⟩ := List.mem_map.mp hu
      have hp3 : p ∈ candidate_contact_paths.take MAX_PAGES_PER_SITE :=
        List.take_subset _ _ hp
      have : p = S "/" ∨ p = S "/kontakt" ∨ p = S "/om-oss" := by
        simpa [candidate_contact_paths, MAX_PAGES_PER_SITE, S] using hp3
      rcases this with rfl | rfl | rfl
      · exact Or.inl rfl
      · exact Or.inr (Or.inl rfl)
      · exact Or.inr (Or.inr rfl)
    have hnc : ∀ q : Str, q ≠ S "/" → q ≠ S "/kontakt" → q ≠ S "/om-oss" →
        base0 ++ q ∉ (crawl_for_email tldx fetchO website).2 := by
      intro q h1 h2 h3 hmem
      rcases hall _ hmem with h | h | h
      · exact h1 (List.append_cancel_left h)
      · exact h2 (List.append_cancel_left h)
      · exact h3 (List.append_cancel_left h)
    constructor
    · rw [hcrawl, he]
      calc (((candidate_contact_paths.take MAX_PAGES_PER_SITE).take k).map
              (fun p => base0 ++ p)).length
          = ((candidate_contact_paths.take MAX_PAGES_PER_SITE).take k).length := by
            rw [List.length_map]
        _ ≤ (candidate_contact_paths.take MAX_PAGES_PER_SITE).length :=
            (List.take_sublist _ _).length_le
        _ ≤ MAX_PAGES_PER_SITE := by decide
    · intro base hb
      injection hb with hb
      subst hb
      exact ⟨⟨k, by rw [hcrawl, he]⟩, hall,
        hnc _ (by decide) (by decide) (by decide),
        hnc _ (by decide) (by decide) (by decide),
        hnc _ (by decide) (by decide) (by decide)⟩

/-- Witness for C10: a concrete site where all three permitted pages are
fetched and the English contact alias never is. -/
theorem crawl_for_email_page_budget_witness :
    normalize_url (S "x.no") = some (S "http://x.no") ∧
    (crawl_for_email tld0 noFetch (S "x.no")).2.length ≤ MAX_PAGES_PER_SITE ∧
    S "http://x.no" ++ S "/contact" ∉ (crawl_for_email tld0 noFetch (S "x.no")).2 :=
  ⟨by decide,
   (crawl_for_email_page_budget tld0 noFetch (S "x.no")).1,
   ((crawl_for_email_page_budget tld0 noFetch (S "x.no")).2 (S "http://x.no")
     (by decide)).2.2.1⟩

/-! ## Campaign-loop lemmas shared by C1 and C6 -/

theorem campaignRun_log_mono (provider : Str → Str → Except Str (Nat × Str))
    (render : Str → Str → Str → Str → Str) (unsub : List Str) (now : Nat) :
    ∀ (rows : List SendRow) (st : RunResult) (x : Str), x ∈ st.log →
      x ∈ (rows.foldl (campaignStep provider render unsub now) st).log := by
  intro rows
  induction rows with
  | nil => intro st x hx; exact hx
  | cons r rs ih =>
    intro st x hx
    rw [List.foldl_cons]
    apply ih
    unfold campaignStep
    by_cases hu : already_unsubscribed unsub r.email = true
    · simp only [hu, if_pos rfl]
      exact hx
    · simp only [Bool.not_eq_true] at hu
      simp only [hu, Bool.false_eq_true, if_neg, ite_false]
      cases hs : send_via_sendgrid provider r.email (renderOf render r) with
      | ok u => exact List.mem_append.mpr (Or.inl hx)
      | error m => exact List.mem_append.mpr (Or.inl hx)

theorem campaignRun_deliveries_eq (provider : Str → Str → Except Str (Nat × Str))
    (render : Str → Str → Str → Str → Str) (unsub : List Str) (now : Nat) :
    ∀ (rows : List SendRow) (st : RunResult),
      (rows.foldl (campaignStep provider render unsub now) st).deliveries
        = st.deliveries
          ++ (rows.filter (fun r => !already_unsubscribed unsub r.email)).map
              (fun r => r.email) := by
  intro rows
  induction rows with
  | nil => intro st; simp
  | cons r rs ih =>
    intro st
    rw [List.foldl_cons]
    cases hu : already_unsubscribed unsub r.email with
    | true =>
      have hstep : campaignStep provider render unsub now st r = st := by
        simp [campaignStep, hu]
      rw [hstep, ih, List.filter_cons_of_neg (by simp [hu])]
    | false =>
      have hdel : (campaignStep provider render unsub now st r).deliveries
          = st.deliveries ++ [r.email] := by
        unfold campaignStep
        simp only [hu, Bool.false_eq_true, if_neg, ite_false]
        cases send_via_sendgrid provider r.email (renderOf render r) <;> rfl
      rw [ih, hdel, List.filter_cons_of_pos (by simp [hu]), List.map_cons,
        List.append_assoc, List.singleton_append]

theorem findSent_mark_sent_ne (sent : List SentRow) (em orgnr : Str) (now : Nat)
    (key : Str) (h : key ≠ pyLower em) :
    findSent (mark_sent sent em orgnr now) key = findSent sent key := by
  unfold findSent mark_sent
  rw [List.find?_cons]
  have : (decide ((⟨pyLower em, orgnr, now⟩ : SentRow).email = key)) = false := by
    simp only [decide_eq_false_iff_not]
    intro hc
    exact h (hc ▸ rfl)
  rw [this]
  exact find?_filter_of_imp _ _ _ (fun s hs => by
    simp only [decide_eq_true_eq] at hs
    simp only [decide_eq_true_eq]
    intro hc
    exact h (hs ▸ hc ▸ rfl))

theorem campaignRun_sent_preserved (provider : Str → Str → Except Str (Nat × Str))
    (render : Str → Str → Str → Str → Str) (unsub : List Str) (now : Nat) (key : Str) :
    ∀ (rows : List SendRow) (st : RunResult),
      (∀ r ∈ rows, already_unsubscribed unsub r.email = false → pyLower r.email = key →
        ∃ m, send_via_sendgrid provider r.email (renderOf render r) = .error m) →
      findSent (rows.foldl (campaignStep provider render unsub now) st).sent key
        = findSent st.sent key := by
  intro rows
  induction rows with
  | nil => intro st _; rfl
  | cons r rs ih =>
    intro st hcond
    rw [List.foldl_cons]
    have htail : ∀ r' ∈ rs, already_unsubscribed unsub r'.email = false →
        pyLower r'.email = key →
        ∃ m, send_via_sendgrid provider r'.email (renderOf render r') = .error m :=
      fun r' hr' => hcond r' (List.mem_cons_of_mem _ hr')
    cases hu : already_unsubscribed unsub r.email with
    | true =>
      have hstep : campaignStep provider render unsub now st r = st := by
        simp [campaignStep, hu]
      rw [hstep, ih _ htail]
    | false =>
      cases hs : send_via_sendgrid provider r.email (renderOf render r) with
      | error m =>
        have hstep : (campaignStep provider render unsub now st r).sent = st.sent := by
          unfold campaignStep
          simp only [hu, Bool.false_eq_true, if_neg, ite_false, hs]
        rw [ih _ htail, hstep]
      | ok u =>
        have hne : key ≠ pyLower r.email := by
          intro hc
          obtain ⟨m, hm⟩ := hcond r (List.mem_cons_self _ _) hu hc.symm
          rw [hs] at hm
          cases hm
        have hstep : (campaignStep provider render unsub now st r).sent
            = mark_sent st.sent r.email r.orgnr now := by
          unfold campaignStep
          simp only [hu, Bool.false_eq_true, if_neg, ite_false, hs]
        rw [ih _ htail, hstep, findSent_mark_sent_ne _ _ _ _ _ hne]

/-! ## C1: the dispatcher never delivers to an unsubscribed address -/

/-- C1.  For every recipient whose case-folded address is in the
unsubscribed table (the table's identity key is the case-folded address,
and `already_unsubscribed` probes it with `email.lower()`), a run of the
dispatcher issues zero delivery calls to that address and writes no sent
record for it — both for `send_campaign` itself and for the dispatch
loop over an arbitrary candidate batch, regardless of what the
sendable-selection query returned. -/
theorem send_campaign_respects_unsubscribed (provider : Str → Str → Except Str (Nat × Str))
    (render : Str → Str → Str → Str → Str) (companies : List Company)
    (sent0 : List SentRow) (unsub : List Str) (now limit : Nat) (e : Str)
    (h : pyLower e ∈ unsub) :
    (∀ rows : List SendRow,
      (∀ d ∈ (campaignRun provider render unsub now rows sent0).deliveries,
        pyLower d ≠ pyLower e) ∧
      findSent (campaignRun provider render unsub now rows sent0).sent (pyLower e)
        = findSent sent0 (pyLower e)) ∧
    (∀ d ∈ (send_campaign provider render companies sent0 unsub now limit).deliveries,
      pyLower d ≠ pyLower e) ∧
    findSent (send_campaign provider render companies sent0 unsub now limit).sent (pyLower e)
      = findSent sent0 (pyLower e) := by
  have main : ∀ rows : List SendRow,
      (∀ d ∈ (campaignRun provider render unsub now rows sent0).deliveries,
        pyLower d ≠ pyLower e) ∧
      findSent (campaignRun provider render unsub now rows sent0).sent (pyLower e)
        = findSent sent0 (pyLower e) := by
    intro rows
    constructor
    · intro d hd hcontra
      rw [campaignRun, campaignRun_deliveries_eq] at hd
      simp only [List.nil_append] at hd
      obtain ⟨r, hr, rfl⟩ := List.mem_map.mp hd
      have hrf : already_unsubscribed unsub r.email = false := by
        have := (List.mem_filter.mp hr).2
        simpa using this
      have hnot := List.any_eq_false.mp hrf (pyLower e) h
      simp only [decide_eq_true_eq] at hnot
      exact hnot hcontra.symm
    · rw [campaignRun]
      apply campaignRun_sent_preserved
      intro r _ hrf hkey
      exfalso
      have hnot := List.any_eq_false.mp hrf (pyLower e) h
      simp only [decide_eq_true_eq] at hnot
      exact hnot hkey.symm
  exact ⟨main, (main _).1, (main _).2⟩

/-- Witness for C1: `C@D.no` is unsubscribed under case-folding; the run
delivers only to the other candidate and records no sent row for it. -/
theorem send_campaign_respects_unsubscribed_witness :
    pyLower (S "ok@e.no") ≠ pyLower (S "C@D.no") ∧
    findSent (send_campaign provider0 render0 companies1 [] unsub1 7 80).sent
        (pyLower (S "C@D.no"))
      = findSent ([] : List SentRow) (pyLower (S "C@D.no")) :=
  ⟨(send_campaign_respects_unsubscribed provider0 render0 companies1 [] unsub1 7 80
      (S "C@D.no") (by decide)).2.1 (S "ok@e.no") (by decide),
   (send_campaign_respects_unsubscribed provider0 render0 companies1 [] unsub1 7 80
      (S "C@D.no") (by decide)).2.2⟩

/-! ## C6: a delivery failure is isolated to its candidate -/

theorem campaignRun_error_logged (provider : Str → Str → Except Str (Nat × Str))
    (render : Str → Str → Str → Str → Str) (unsub : List Str) (now : Nat) :
    ∀ (rows : List SendRow) (st : RunResult), ∀ r ∈ rows,
      already_unsubscribed unsub r.email = false →
      ∀ m, send_via_sendgrid provider r.email (renderOf render r) = .error m →
      (S "ERROR sending to " ++ r.email ++ S ": " ++ m)
        ∈ (rows.foldl (campaignStep provider render unsub now) st).log := by
  intro rows
  induction rows with
  | nil => intro st r hr; cases hr
  | cons a rs ih =>
    intro st r hr hu m hs
    rw [List.foldl_cons]
    rcases List.mem_cons.mp hr with rfl | hr'
    · apply campaignRun_log_mono
      unfold campaignStep
      simp only [hu, Bool.false_eq_true, if_neg, ite_false, hs]
      exact List.mem_append.mpr (Or.inr (List.mem_singleton.mpr rfl))
    · exact ih _ r hr' hu m hs

/-- C6.  Every non-unsubscribed candidate in the batch gets exactly one
delivery attempt (so one failing candidate never aborts the batch); when
a candidate's delivery call fails — it throws, or the provider returns a
non-success status, which `send_via_sendgrid` raises — the failure is
logged with the recipient and no sent record is written for that
recipient. -/
theorem campaign_failure_isolated (provider : Str → Str → Except Str (Nat × Str))
    (render : Str → Str → Str → Str → Str) (unsub : List Str) (now : Nat)
    (rows : List SendRow) (sent0 : List SentRow) :
    (campaignRun provider render unsub now rows sent0).deliveries
      = (rows.filter (fun r => !already_unsubscribed unsub r.email)).map
          (fun r => r.email) ∧
    (∀ r ∈ rows, already_unsubscribed unsub r.email = false →
      ∀ m, send_via_sendgrid provider r.email (renderOf render r) = .error m →
        (S "ERROR sending to " ++ r.email ++ S ": " ++ m)
          ∈ (campaignRun provider render unsub now rows sent0).log) ∧
    (∀ e : Str,
      (∀ r ∈ rows, pyLower r.email = pyLower e →
        already_unsubscribed unsub r.email = false →
        ∃ m, send_via_sendgrid provider r.email (renderOf render r) = .error m) →
      findSent (campaignRun provider render unsub now rows sent0).sent (pyLower e)
        = findSent sent0 (pyLower e)) := by
  refine ⟨?_, ?_, ?_⟩
  · rw [campaignRun, campaignRun_deliveries_eq]
    simp
  · intro r hr hu m hs
    exact campaignRun_error_logged provider render unsub now rows _ r hr hu m hs
  · intro e hcond
    rw [campaignRun]
    apply campaignRun_sent_preserved
    intro r hr hu hkey
    exact hcond r hr hkey hu

/-- Witness for C6: in a batch where the first delivery throws, the
error is logged with the recipient, the second candidate is still
attempted, and no sent record appears for the failing recipient. -/
theorem campaign_failure_isolated_witness :
    (campaignRun provider0 render0 [] 7 rows0 []).deliveries
        = [S "fail@x.no", S "ok@e.no"] ∧
    (S "ERROR sending to " ++ fRow.email ++ S ": " ++ S "boom")
      ∈ (campaignRun provider0 render0 [] 7 rows0 []).log ∧
    findSent (campaignRun provider0 render0 [] 7 rows0 []).sent (pyLower (S "fail@x.no"))
      = findSent ([] : List SentRow) (pyLower (S "fail@x.no")) := by
  refine ⟨((campaign_failure_isolated provider0 render0 [] 7 rows0 []).1).trans (by decide),
    (campaign_failure_isolated provider0 render0 [] 7 rows0 []).2.1 fRow (by decide)
      (by decide) (S "boom") rfl,
    (campaign_failure_isolated provider0 render0 [] 7 rows0 []).2.2 (S "fail@x.no") ?_⟩
  intro r hr heq _
  have : r = fRow ∨ r = okRow := by simpa [rows0] using hr
  rcases this with rfl | rfl
  · exact ⟨S "boom", rfl⟩
  · exact absurd heq (by decide)

/-- Witness for C2: a fresher record with null website/email does not
erase the stored website/email, while its name and industry code do
overwrite. -/
theorem upsert_companies_coalesce_witness :
    ∃ r', findRow (upsert_companies [wRow] [wComp] 9) wComp.orgnr = some r' ∧
      r' = updatedRow wRow wComp 9 ∧
      r'.name = wComp.name ∧ r'.municipality = wComp.municipality ∧
      r'.nace = wComp.nace ∧ r'.source = wComp.source ∧ r'.last_seen = 9 ∧
      (wComp.website = none → r'.website = wRow.website) ∧
      (∀ w, wComp.website = some w → r'.website = some w) ∧
      (wComp.email = none → r'.email = wRow.email) ∧
      (∀ v, wComp.email = some v → r'.email = some v) :=
  upsert_companies_coalesce [wRow] wComp 9 wRow (by decide)

/-! ## C4: the industry-prefix filter of registry ingestion -/

theorem pageCompanies_filter_sound (naceP : List Str) (ents : List BrregEntity) :
    ∀ c ∈ pageCompanies naceP ents, naceP ≠ [] → c.nace ≠ [] →
      ∃ p ∈ naceP, strStartsB p c.nace = true := by
  intro c hc hne hnace
  unfold pageCompanies at hc
  obtain ⟨e, he, hsome⟩ := List.mem_filterMap.mp hc
  by_cases hf : naceFilteredOut naceP e = true
  · rw [if_pos hf] at hsome
    cases hsome
  · have hf' : naceFilteredOut naceP e = false := by simpa using hf
    rw [if_neg (by simp [hf'])] at hsome
    injection hsome with hsome
    subst hsome
    cases hany : naceP.any (fun p => strStartsB p e.nace) with
    | true =>
      obtain ⟨p, hp, hps⟩ := List.any_eq_true.mp hany
      exact ⟨p, hp, by simpa using hps⟩
    | false =>
      exfalso
      have h1 : naceP.isEmpty = false := by
        cases hP : naceP with
        | nil => exact absurd hP hne
        | cons a l => rfl
      have h2 : e.nace.isEmpty = false := by
        cases hN : e.nace with
        | nil => exact absurd hN hnace
        | cons a l => rfl
      rw [naceFilteredOut, h1, h2, hany] at hf'
      simp at hf'

/-- All possible outcomes of one pagination step: a break with the old
harvest, a break with the page's companies appended, or a continuation
with page+1, the page signature recorded, and the companies appended. -/
theorem brregStep_out (naceP : List Str) (maxPages : Option Nat)
    (resp : Nat → Option BrregPage) (st : FetchSt) :
    (∃ cs, brregStep naceP maxPages resp st = Sum.inl cs ∧
      (cs = st.acc ∨
        ∃ pg, resp st.page = some pg ∧ cs = st.acc ++ pageCompanies naceP pg.enheter)) ∨
    (∃ pg, resp st.page = some pg ∧
      brregStep naceP maxPages resp st
        = Sum.inr ⟨st.page + 1, pageSig pg.enheter :: st.seen,
                   st.acc ++ pageCompanies naceP pg.enheter⟩) := by
  unfold brregStep
  by_cases h1 : (match maxPages with | some m => decide (m ≤ st.page) | none => false) = true
  · rw [if_pos h1]
    exact Or.inl ⟨st.acc, rfl, Or.inl rfl⟩
  · rw [if_neg h1]
    cases hr : resp st.page with
    | none => exact Or.inl ⟨st.acc, rfl, Or.inl rfl⟩
    | some pg =>
      dsimp only
      by_cases h2 : pageSig pg.enheter ∈ st.seen
      · rw [if_pos h2]
        exact Or.inl ⟨st.acc, rfl, Or.inl rfl⟩
      · rw [if_neg h2]
        by_cases h3 : pg.enheter.isEmpty = true
        · rw [if_pos h3]
          exact Or.inl ⟨st.acc, rfl, Or.inl rfl⟩
        · rw [if_neg h3]
          cases ht : pg.totalPages with
          | none => exact Or.inr ⟨pg, rfl, rfl⟩
          | some t =>
            dsimp only
            by_cases h4 : t ≤ st.page + 1
            · rw [if_pos h4]
              exact Or.inl ⟨_, rfl, Or.inr ⟨pg, rfl, rfl⟩⟩
            · rw [if_neg h4]
              exact Or.inr ⟨pg, rfl, rfl⟩

theorem brregLoop_acc_prop (naceP : List Str) (maxPages : Option Nat)
    (resp : Nat → Option BrregPage) (P : Company → Prop)
    (hpage : ∀ ents, ∀ c ∈ pageCompanies naceP ents, P c) :
    ∀ (fuel : Nat) (st : FetchSt), (∀ c ∈ st.acc, P c) →
      ∀ c ∈ (brregLoop naceP maxPages resp fuel st).1, P c := by
  intro fuel
  induction fuel with
  | zero => intro st hst c hc; exact hst c hc
  | succ n ih =>
    intro st hst c hc
    have happ : ∀ ents : List BrregEntity,
        ∀ c' ∈ st.acc ++ pageCompanies naceP ents, P c' := by
      intro ents c' hc'
      rcases List.mem_append.mp hc' with h | h
      · exact hst c' h
      · exact hpage ents c' h
    rw [brregLoop] at hc
    rcases brregStep_out naceP maxPages resp st with ⟨cs, hcs, hor⟩ | ⟨pg, hpg, hstep⟩
    · rw [hcs] at hc
      simp only at hc
      rcases hor with rfl | ⟨pg, _, rfl⟩
      · exact hst c hc
      · exact happ _ c hc
    · rw [hstep] at hc
      simp only at hc
      exact ih _ (happ pg.enheter) c hc

/-- C4 (amended).  Every company produced by registry ingestion whose
industry code is non-empty starts with one of the prefixes whenever the
prefix set is non-empty (records with an empty/missing industry code
bypass the filter), and with an empty prefix set no record is filtered
out. -/
theorem fetch_from_brreg_filter :
    (∀ (munis naceP : List Str) (maxPages : Option Nat)
       (resp : Str → Nat → Option BrregPage) (fuel : Nat),
      ∀ c ∈ fetch_from_brreg munis naceP maxPages resp fuel,
        naceP ≠ [] → c.nace ≠ [] → ∃ p ∈ naceP, strStartsB p c.nace = true) ∧
    (∀ ents : List BrregEntity, pageCompanies [] ents = ents.map entityToCompany) := by
  constructor
  · intro munis naceP maxPages resp fuel
    unfold fetch_from_brreg
    suffices h : ∀ (ms : List Str) (acc : List Company),
        (∀ c ∈ acc, naceP ≠ [] → c.nace ≠ [] → ∃ p ∈ naceP, strStartsB p c.nace = true) →
        ∀ c ∈ ms.foldl
            (fun acc mu => acc ++ (brregLoop naceP maxPages (resp mu) fuel fetchInit).1) acc,
          naceP ≠ [] → c.nace ≠ [] → ∃ p ∈ naceP, strStartsB p c.nace = true by
      intro c hc
      exact h munis [] (by intro c' hc'; cases hc') c hc
    intro ms
    induction ms with
    | nil => intro acc hacc c hc; exact hacc c hc
    | cons mu ms ih =>
      intro acc hacc c hc
      rw [List.foldl_cons] at hc
      refine ih _ ?_ c hc
      intro c' hc'
      rcases List.mem_append.mp hc' with h | h
      · exact hacc c' h
      · exact brregLoop_acc_prop naceP maxPages (resp mu) _
          (fun ents c'' hc'' => pageCompanies_filter_sound naceP ents c'' hc'')
          fuel fetchInit (by intro c'' hc''; cases hc'') c' h
  · intro ents
    exact congrFun (List.filterMap_eq_map entityToCompany) ents

/-- Counterexample to C4 as stated: with the non-empty prefix set
`["56"]`, ingestion still produces a record whose industry code is empty
and hence starts with no prefix (the Python truthiness test
`nace_prefixes and nace and ...` lets empty codes through). -/
theorem fetch_from_brreg_filter_cex :
    fetch_from_brreg [S "0301"] [S "56"] none cexResp4 3
      = [{ orgnr := S "999", name := S "Acme", municipality := S "0301", nace := S "",
           website := none, email := none, source := S "brreg" }] ∧
    ([S "56"] : List Str) ≠ [] ∧
    strStartsB (S "56") (S "") = false := by decide

/-- Witness for C4 (amended): a fetched record with industry code `56.1`
matches the prefix `56`, and with an empty prefix set a page maps to
companies with no filtering. -/
theorem fetch_from_brreg_filter_witness :
    (∃ p ∈ [S "56"], strStartsB p compB.nace = true) ∧
    pageCompanies [] [ent998] = [ent998].map entityToCompany :=
  ⟨fetch_from_brreg_filter.1 [S "0301"] [S "56"] none okResp4 3 compB
      (by decide) (by decide) (by decide),
   fetch_from_brreg_filter.2 [ent998]⟩

/-! ## C5: termination of the pagination loop -/

theorem brregStep_page_succ (naceP : List Str) (maxPages : Option Nat)
    (resp : Nat → Option BrregPage) (st st' : FetchSt)
    (h : brregStep naceP maxPages resp st = .inr st') :
    st'.page = st.page + 1 := by
  rcases brregStep_out naceP maxPages resp st with ⟨cs, hcs, _⟩ | ⟨pg, _, hstep⟩
  · rw [hcs] at h
    cases h
  · rw [hstep] at h
    injection h with h
    subst h
    rfl

theorem brregStep_maxpages (naceP : List Str) (resp : Nat → Option BrregPage)
    (m : Nat) (st : FetchSt) (h : m ≤ st.page) :
    brregStep naceP (some m) resp st = .inl st.acc := by
  unfold brregStep
  rw [if_pos]
  simpa using h

theorem brregLoop_cap (naceP : List Str) (resp : Nat → Option BrregPage) (m : Nat) :
    ∀ (fuel : Nat) (st : FetchSt), m ≤ st.page + fuel →
      (brregLoop naceP (some m) resp (fuel + 1) st).2 = true := by
  intro fuel
  induction fuel with
  | zero =>
    intro st h
    rw [Nat.add_zero] at h
    rw [brregLoop, brregStep_maxpages naceP resp m st h]
  | succ n ih =>
    intro st h
    by_cases hm : m ≤ st.page
    · rw [brregLoop, brregStep_maxpages naceP resp m st hm]
    · rw [brregLoop]
      cases hstep : brregStep naceP (some m) resp st with
      | inl cs => rfl
      | inr st' =>
        have hpage := brregStep_page_succ naceP (some m) resp st st' hstep
        exact ih st' (by omega)

/-- A page triggers an immediate break of the uncapped loop when the
fetch errors out, the page is empty, or the page reports a total-page
count of at most the next page index (whatever the seen-set holds: a
repeated signature only stops the loop even earlier). -/
theorem brregStep_trigger_stops (naceP : List Str) (resp : Nat → Option BrregPage)
    (st : FetchSt)
    (h : resp st.page = none ∨ ∃ pg, resp st.page = some pg ∧
      (pg.enheter = [] ∨ ∃ t, pg.totalPages = some t ∧ t ≤ st.page + 1)) :
    ∃ cs, brregStep naceP none resp st = .inl cs := by
  unfold brregStep
  rw [if_neg (by simp)]
  rcases h with h | ⟨pg, hpg, hcond⟩
  · rw [h]
    exact ⟨st.acc, rfl⟩
  · rw [hpg]
    dsimp only
    by_cases hseen : pageSig pg.enheter ∈ st.seen
    · rw [if_pos hseen]
      exact ⟨st.acc, rfl⟩
    · rw [if_neg hseen]
      by_cases hemp : pg.enheter.isEmpty = true
      · rw [if_pos hemp]
        exact ⟨st.acc, rfl⟩
      · rw [if_neg hemp]
        rcases hcond with hemp2 | ⟨t, ht, hle⟩
        · exact absurd (show pg.enheter.isEmpty = true by rw [hemp2]; rfl) hemp
        · rw [ht]
          dsimp only
          rw [if_pos hle]
          exact ⟨_, rfl⟩

theorem brregLoop_trigger_page (naceP : List Str) (resp : Nat → Option BrregPage) :
    ∀ (d : Nat) (st : FetchSt),
      (resp (st.page + d) = none ∨ ∃ pg, resp (st.page + d) = some pg ∧
        (pg.enheter = [] ∨ ∃ t, pg.totalPages = some t ∧ t ≤ st.page + d + 1)) →
      (brregLoop naceP none resp (d + 2) st).2 = true := by
  intro d
  induction d with
  | zero =>
    intro st h
    rw [Nat.add_zero] at h
    obtain ⟨cs, hcs⟩ := brregStep_trigger_stops naceP resp st h
    rw [brregLoop, hcs]
  | succ n ih =>
    intro st h
    rw [brregLoop]
    cases hstep : brregStep naceP none resp st with
    | inl cs => rfl
    | inr st' =>
      have hpage := brregStep_page_succ naceP none resp st st' hstep
      apply ih st'
      rw [hpage, show st.page + 1 + n = st.page + (n + 1) from by omega]
      exact h

/-- The full continuation state of one pagination step: on `inr` the
page advanced by one, the page's signature was recorded, and the page's
companies were appended. -/
theorem brregStep_inr_state (naceP : List Str) (maxPages : Option Nat)
    (resp : Nat → Option BrregPage) (st st' : FetchSt)
    (h : brregStep naceP maxPages resp st = .inr st') :
    ∃ pg, resp st.page = some pg ∧
      st' = ⟨st.page + 1, pageSig pg.enheter :: st.seen,
             st.acc ++ pageCompanies naceP pg.enheter⟩ := by
  rcases brregStep_out naceP maxPages resp st with ⟨cs, hcs, _⟩ | ⟨pg, hpg, hstep⟩
  · rw [hcs] at h
    cases h
  · rw [hstep] at h
    injection h with h
    exact ⟨pg, hpg, h.symm⟩

/-- The repeated-signature safeguard of line 163: a page whose signature
is already in the seen-set breaks the loop. -/
theorem brregStep_seen_stops (naceP : List Str) (resp : Nat → Option BrregPage)
    (st : FetchSt) (pg : BrregPage) (hpg : resp st.page = some pg)
    (hseen : pageSig pg.enheter ∈ st.seen) :
    brregStep naceP none resp st = .inl st.acc := by
  unfold brregStep
  rw [if_neg (by simp)]
  rw [hpg]
  dsimp only
  rw [if_pos hseen]

/-- If pages `i < j` carry the same signature, the uncapped loop stops
within `j + 2` iterations: every visited page's signature lands in the
seen-set, so page `j`, if ever reached, trips the repeat safeguard. -/
theorem brregLoop_repeat_page (naceP : List Str) (resp : Nat → Option BrregPage)
    (i j : Nat) (pgi pgj : BrregPage) (hij : i < j)
    (hi : resp i = some pgi) (hj : resp j = some pgj)
    (hsig : pageSig pgj.enheter = pageSig pgi.enheter) :
    ∀ (d : Nat) (st : FetchSt),
      (∀ q, q < st.page → ∀ pg, resp q = some pg → pageSig pg.enheter ∈ st.seen) →
      st.page + d = j →
      (brregLoop naceP none resp (d + 2) st).2 = true := by
  intro d
  induction d with
  | zero =>
    intro st hinv hpage
    rw [Nat.add_zero] at hpage
    have hmem : pageSig pgj.enheter ∈ st.seen := by
      rw [hsig]
      exact hinv i (by omega) pgi hi
    have hstop := brregStep_seen_stops naceP resp st pgj (by rw [hpage]; exact hj) hmem
    rw [brregLoop, hstop]
  | succ n ih =>
    intro st hinv hpage
    rw [brregLoop]
    cases hstep : brregStep naceP none resp st with
    | inl cs => rfl
    | inr st' =>
      obtain ⟨pg, hpg, hst'⟩ := brregStep_inr_state naceP none resp st st' hstep
      subst hst'
      apply ih
      · intro q hq pg' hpg'
        have hq' : q < st.page + 1 := hq
        rcases Nat.lt_succ_iff_lt_or_eq.mp hq' with hlt | heq
        · exact List.mem_cons_of_mem _ (hinv q hlt pg' hpg')
        · subst heq
          rw [hpg] at hpg'
          injection hpg' with hpg'
          subst hpg'
          exact List.mem_cons_self _ _
      · show st.page + 1 + n = j
        omega

/-- C5 (amended).  The pagination loop terminates whenever a page cap is
supplied (within cap+1 iterations for any responses); without a cap it
terminates whenever some page errors out, comes back empty, or reports
a total-page count of at most the next page index, and whenever two
pages carry the same signature (the repeated-page safeguard).  The
counterexample shows an adversarial API returning ever-distinct
non-empty pages with no total-page count keeps the loop running
forever. -/
theorem brreg_pagination_termination_cases :
    (∀ (naceP : List Str) (resp : Nat → Option BrregPage) (m : Nat),
      (brregLoop naceP (some m) resp (m + 1) fetchInit).2 = true) ∧
    (∀ (naceP : List Str) (resp : Nat → Option BrregPage) (k : Nat),
      (resp k = none ∨ ∃ pg, resp k = some pg ∧
        (pg.enheter = [] ∨ ∃ t, pg.totalPages = some t ∧ t ≤ k + 1)) →
      (brregLoop naceP none resp (k + 2) fetchInit).2 = true) ∧
    (∀ (naceP : List Str) (resp : Nat → Option BrregPage) (i j : Nat)
       (pgi pgj : BrregPage), i < j → resp i = some pgi → resp j = some pgj →
      pageSig pgj.enheter = pageSig pgi.enheter →
      (brregLoop naceP none resp (j + 2) fetchInit).2 = true) := by
  refine ⟨?_, ?_, ?_⟩
  · intro naceP resp m
    exact brregLoop_cap naceP resp m m fetchInit (by simp [fetchInit])
  · intro naceP resp k h
    exact brregLoop_trigger_page naceP resp k fetchInit (by simpa [fetchInit] using h)
  · intro naceP resp i j pgi pgj hij hi hj hsig
    refine brregLoop_repeat_page naceP resp i j pgi pgj hij hi hj hsig j fetchInit ?_ ?_
    · intro q hq pg hpg
      simp [fetchInit] at hq
    · simp [fetchInit]

/-- Witness for C5 (amended): a cap of 2 stops the adversarial oracle's
loop; an erroring page 1 stops an uncapped loop; a non-empty page 0
reporting a total-page count of 1 stops an uncapped loop; and an API
echoing the same page forever is stopped by the signature safeguard. -/
theorem brreg_pagination_termination_cases_witness :
    (brregLoop [] (some 2) advResp 3 fetchInit).2 = true ∧
    (brregLoop [] none respW 3 fetchInit).2 = true ∧
    (brregLoop [] none totResp 2 fetchInit).2 = true ∧
    (brregLoop [] none repResp 3 fetchInit).2 = true :=
  ⟨brreg_pagination_termination_cases.1 [] advResp 2,
   brreg_pagination_termination_cases.2.1 [] respW 1 (Or.inl rfl),
   brreg_pagination_termination_cases.2.1 [] totResp 0
     (Or.inr ⟨_, rfl, Or.inr ⟨1, rfl, by decide⟩⟩),
   brreg_pagination_termination_cases.2.2 [] repResp 0 1 repPage repPage
     (by decide) rfl rfl rfl⟩

theorem advStep (st : FetchSt)
    (h : [List.replicate (st.page + 1) 'a'] ∉ st.seen) :
    brregStep [] none advResp st
      = .inr ⟨st.page + 1, [List.replicate (st.page + 1) 'a'] :: st.seen,
              st.acc ++ pageCompanies [] (advPage st.page).enheter⟩ := by
  have hsig : pageSig (advPage st.page).enheter = [List.replicate (st.page + 1) 'a'] := rfl
  unfold brregStep
  rw [if_neg (by simp)]
  rw [show advResp st.page = some (advPage st.page) from rfl]
  dsimp only
  rw [hsig, if_neg h, if_neg (by simp [advPage])]
  rfl

theorem advLoop_never_stops :
    ∀ (fuel : Nat) (st : FetchSt),
      (∀ sg ∈ st.seen, ∃ j, j < st.page ∧ sg = [List.replicate (j + 1) 'a']) →
      (brregLoop [] none advResp fuel st).2 = false := by
  intro fuel
  induction fuel with
  | zero => intro st _; rfl
  | succ n ih =>
    intro st hinv
    have hnotin : [List.replicate (st.page + 1) 'a'] ∉ st.seen := by
      intro hmem
      obtain ⟨j, hj, he⟩ := hinv _ hmem
      have hrep : List.replicate (st.page + 1) 'a' = List.replicate (j + 1) 'a' := by
        injection he
      have : st.page + 1 = j + 1 := by
        have := congrArg List.length hrep
        simpa using this
      omega
    rw [brregLoop, advStep st hnotin]
    apply ih
    intro sg hsg
    rcases List.mem_cons.mp hsg with rfl | h'
    · exact ⟨st.page, Nat.lt_succ_self _, rfl⟩
    · obtain ⟨j, hj, he⟩ := hinv _ h'
      exact ⟨j, Nat.lt_succ_of_lt hj, he⟩

/-- Counterexample to C5 as stated: against an adversarial API that
keeps returning distinct non-empty pages and no total-page count, the
uncapped pagination loop never reaches a stopping condition, for any
number of iterations — it does not terminate. -/
theorem brreg_pagination_cex :
    ¬ ∃ fuel, (brregLoop [] none advResp fuel fetchInit).2 = true := by
  rintro ⟨fuel, hf⟩
  rw [advLoop_never_stops fuel fetchInit (by intro sg hsg; cases hsg)] at hf
  cases hf

/-! ## C9: the ranking of extracted addresses -/

theorem rankLe_refl (a : Str) : rankLe a a :=
  Or.inr ⟨rfl, Nat.le_refl _⟩

theorem crawlGo_some (fetchO : Str → Option Str) (base domain : Str) :
    ∀ (paths fetched0 : List Str) (e : Str) (fetched : List Str),
      crawlGo fetchO base domain paths fetched0 = (some e, fetched) →
      ∃ url html, url ∈ fetched ∧ fetchO url = some html ∧
        e ∈ qualify domain html ∧ ∀ e' ∈ qualify domain html, rankLe e e' := by
  intro paths
  induction paths with
  | nil =>
    intro fetched0 e fetched h
    simp [crawlGo] at h
  | cons p ps ih =>
    intro fetched0 e fetched h
    cases hf : fetchO (base ++ p) with
    | none =>
      rw [crawlGo] at h
      rw [hf] at h
      exact ih _ _ _ h
    | some html =>
      rw [crawlGo] at h
      rw [hf] at h
      dsimp only at h
      split_ifs at h with hh hq
      · exact ih _ _ _ h
      · exact ih _ _ _ h
      · rw [Prod.ext_iff] at h
        obtain ⟨h1, h2⟩ := h
        dsimp only at h1 h2
        cases hs : List.insertionSort rankLe (qualify domain html) with
        | nil => rw [hs] at h1; cases h1
        | cons a t =>
          rw [hs] at h1
          injection h1 with h1
          subst h1
          have hperm := List.perm_insertionSort rankLe (qualify domain html)
          refine ⟨base ++ p, html, ?_, hf, ?_, ?_⟩
          · rw [← h2]
            exact List.mem_append.mpr (Or.inr (List.mem_singleton.mpr rfl))
          · exact hperm.subset (hs ▸ List.mem_cons_self _ _)
          · intro e' he'
            have he's : e' ∈ List.insertionSort rankLe (qualify domain html) :=
              hperm.symm.subset he'
            rw [hs] at he's
            rcases List.mem_cons.mp he's with rfl | hint
            · exact rankLe_refl _
            · have hsorted := List.sorted_insertionSort rankLe (qualify domain html)
              rw [hs] at hsorted
              exact List.rel_of_sorted_cons hsorted _ hint

/-- C9 (amended).  A returned address is top-ranked among the qualifying
addresses of the page it came from under the code's key: addresses
containing one of the markers `kontakt@`, `post@`, `info@`, `booking@`,
`bestilling@` as a substring rank before those that do not (not
"local-part membership in a preferred set"), and the shorter address
wins ties.  In particular (witness), for candidates sales@x.no,
post@x.no, kontakt@x.no the crawler returns post@x.no. -/
theorem crawl_rank_top (tldx : Str → Str × Str) (fetchO : Str → Option Str)
    (website base e : Str) (fetched : List Str)
    (hb : normalize_url website = some base)
    (h : crawl_for_email tldx fetchO website = (some e, fetched)) :
    ∃ url html, url ∈ fetched ∧ fetchO url = some html ∧
      e ∈ qualify (siteDomain tldx base) html ∧
      ∀ e' ∈ qualify (siteDomain tldx base) html, rankLe e e' := by
  unfold crawl_for_email at h
  rw [hb] at h
  exact crawlGo_some fetchO base (siteDomain tldx base) _ _ _ _ h

/-- Counterexample to C9 as stated: on a page whose qualifying addresses
are kontakt@x.no (preferred local part) and xpost@x.no (local part not
in the preferred set, but containing the marker `post@` as a substring
and shorter), the crawler returns xpost@x.no — an address whose local
part is in the preferred set does not rank before one whose local part
is not. -/
theorem crawl_rank_cex :
    (crawl_for_email tld0 fetchSubs (S "x.no")).1 = some (S "xpost@x.no") ∧
    localPart (S "xpost@x.no") ∉ preferredLocalParts ∧
    S "kontakt@x.no" ∈ qualify (siteDomain tld0 (S "http://x.no"))
      (S "kontakt@x.no xpost@x.no") ∧
    localPart (S "kontakt@x.no") ∈ preferredLocalParts := by decide

/-- Witness for C9 (amended): the spec's ranking scenario.  The crawler
returns post@x.no (a preferred-alias match, not sales@x.no), and it is
top-ranked among the page's qualifying addresses. -/
theorem crawl_rank_top_witness :
    crawl_for_email tld0 fetchRank (S "x.no") = (some (S "post@x.no"), [S "http://x.no/"]) ∧
    (∃ url html, url ∈ [S "http://x.no/"] ∧ fetchRank url = some html ∧
      S "post@x.no" ∈ qualify (siteDomain tld0 (S "http://x.no")) html ∧
      ∀ e' ∈ qualify (siteDomain tld0 (S "http://x.no")) html, rankLe (S "post@x.no") e') :=
  ⟨by decide,
   crawl_rank_top tld0 fetchRank (S "x.no") (S "http://x.no") (S "post@x.no")
     [S "http://x.no/"] (by decide) (by decide)⟩

/-! ## C3: the domain filter of the crawler -/

/-- C3 evaluated at the failing input (code bug).  For site `x.no`, a
page containing only `post@notx.no` makes the crawler return that
address, although its domain `notx.no` neither equals the registrable
domain `x.no` nor is a subdomain of it (it does not end in `.x.no`) —
the filter of line 249 uses a bare `endswith` with no dot boundary, so
any unrelated domain sharing the suffix string passes. -/
theorem crawl_domain_filter_bug :
    (crawl_for_email tld0 fetchNotx (S "x.no")).1 = some (S "post@notx.no") ∧
    siteDomain tld0 (S "http://x.no") = S "x.no" ∧
    afterLastAt (S "post@notx.no") = S "notx.no" ∧
    S "notx.no" ≠ S "x.no" ∧
    strEndsB (S "notx.no") ('.' :: S "x.no") = false := by decide

/-! ## C8: re-ingestion idempotence of the upsert -/

theorem foldl_or_shift (f : Company → Option Str) :
    ∀ (M : List Company) (a : Option Str),
      M.foldl (fun x c => (f c).or x) a
        = (M.foldl (fun x c => (f c).or x) none).or a := by
  intro M
  induction M with
  | nil => intro a; simp [Option.none_or]
  | cons c M' ih =>
    intro a
    rw [List.foldl_cons, List.foldl_cons, ih ((f c).or a), ih ((f c).or none),
      Option.or_none, Option.or_assoc]

theorem chainW_append_single (M : List Company) (c : Company) :
    chainW (M ++ [c]) = c.website.or (chainW M) := by
  unfold chainW
  rw [List.foldl_append]
  rfl

theorem chainE_append_single (M : List Company) (c : Company) :
    chainE (M ++ [c]) = c.email.or (chainE M) := by
  unfold chainE
  rw [List.foldl_append]
  rfl

theorem updIf_orgnr (c : Company) (now : Nat) (r : Row) :
    (updIf c now r).orgnr = r.orgnr := by
  unfold updIf
  split
  · rfl
  · rfl

theorem applyAll_cons (c : Company) (L : List Company) (now : Nat) (r : Row) :
    applyAll (c :: L) now r = applyAll L now (updIf c now r) := by
  unfold applyAll
  rw [List.foldl_cons]

theorem applyAll_append_single (L : List Company) (c : Company) (now : Nat) (r : Row) :
    applyAll (L ++ [c]) now r = updIf c now (applyAll L now r) := by
  unfold applyAll
  rw [List.foldl_append]
  rfl

theorem matching_append_single (L : List Company) (c : Company) (k : Str) :
    matching (L ++ [c]) k = matching L k ++ (if c.orgnr = k then [c] else []) := by
  unfold matching
  rw [List.filter_append]
  congr 1
  by_cases hc : c.orgnr = k
  · simp [hc]
  · simp [hc]

theorem upsert_companies_cons (db : List Row) (c : Company) (L : List Company) (t : Nat) :
    upsert_companies db (c :: L) t = upsert_companies (upsert1 db c t) L t := by
  unfold upsert_companies
  rw [List.foldl_cons]

theorem upsert_companies_append_single (db : List Row) (L : List Company) (c : Company)
    (t : Nat) :
    upsert_companies db (L ++ [c]) t = upsert1 (upsert_companies db L t) c t := by
  unfold upsert_companies
  rw [List.foldl_append]
  rfl

theorem containsKey_map (db : List Row) (f : Row → Row) (k : Str)
    (h : ∀ r, (f r).orgnr = r.orgnr) :
    containsKey (db.map f) k = containsKey db k := by
  unfold containsKey
  rw [List.any_map]
  congr 1
  funext r
  simp [h r]

theorem containsKey_upsert1_mono (db : List Row) (c : Company) (now : Nat) (k : Str)
    (h : containsKey db k = true) :
    containsKey (upsert1 db c now) k = true := by
  unfold upsert1
  by_cases hc : containsKey db c.orgnr = true
  · rw [if_pos hc, containsKey_map _ _ _ (updIf_orgnr c now)]
    exact h
  · rw [if_neg hc]
    unfold containsKey at h ⊢
    rw [List.any_append, h]
    rfl

theorem containsKey_upsert1_self (db : List Row) (c : Company) (now : Nat) :
    containsKey (upsert1 db c now) c.orgnr = true := by
  unfold upsert1
  by_cases hc : containsKey db c.orgnr = true
  · rw [if_pos hc, containsKey_map _ _ _ (updIf_orgnr c now)]
    exact hc
  · rw [if_neg hc]
    unfold containsKey
    rw [List.any_append]
    simp [newRow]

theorem upsert_keys_mono (t : Nat) (k : Str) :
    ∀ (L : List Company) (db : List Row), containsKey db k = true →
      containsKey (upsert_companies db L t) k = true := by
  intro L
  induction L with
  | nil => intro db h; exact h
  | cons c L' ih =>
    intro db h
    rw [upsert_companies_cons]
    exact ih _ (containsKey_upsert1_mono db c t k h)

theorem upsert_key_present (t : Nat) :
    ∀ (L : List Company) (db : List Row) (c : Company), c ∈ L →
      containsKey (upsert_companies db L t) c.orgnr = true := by
  intro L
  induction L with
  | nil => intro db c hc; cases hc
  | cons c' L' ih =>
    intro db c hc
    rw [upsert_companies_cons]
    rcases List.mem_cons.mp hc with rfl | h
    · exact upsert_keys_mono t c.orgnr L' _ (containsKey_upsert1_self db c t)
    · exact ih _ c h

theorem upsert_all_update (t : Nat) :
    ∀ (L : List Company) (db : List Row),
      (∀ c ∈ L, containsKey db c.orgnr = true) →
      upsert_companies db L t = db.map (applyAll L t) := by
  intro L
  induction L with
  | nil =>
    intro db _
    rw [show upsert_companies db [] t = db from rfl,
      List.map_congr_left (fun (r : Row) _ => show applyAll [] t r = r from rfl),
      List.map_id']
  | cons c L' ih =>
    intro db hkeys
    rw [upsert_companies_cons]
    have h1 : upsert1 db c t = db.map (updIf c t) := by
      unfold upsert1
      rw [if_pos (hkeys c (List.mem_cons_self _ _))]
    have hkeys' : ∀ c' ∈ L', containsKey (db.map (updIf c t)) c'.orgnr = true := by
      intro c' hc'
      rw [containsKey_map _ _ _ (updIf_orgnr c t)]
      exact hkeys c' (List.mem_cons_of_mem _ hc')
    rw [h1, ih (db.map (updIf c t)) hkeys', List.map_map]
    have hcomp : (applyAll L' t) ∘ (updIf c t) = applyAll (c :: L') t := by
      funext r
      exact (applyAll_cons c L' t r).symm
    rw [hcomp]

theorem applyAll_char (now : Nat) :
    ∀ (L : List Company) (r : Row),
      (matching L r.orgnr = [] → applyAll L now r = r) ∧
      (matching L r.orgnr ≠ [] →
        applyAll L now r =
          { orgnr := r.orgnr,
            name := ((matching L r.orgnr).getLastD dummyCompany).name,
            municipality := ((matching L r.orgnr).getLastD dummyCompany).municipality,
            nace := ((matching L r.orgnr).getLastD dummyCompany).nace,
            website := (chainW (matching L r.orgnr)).or r.website,
            email := (chainE (matching L r.orgnr)).or r.email,
            source := ((matching L r.orgnr).getLastD dummyCompany).source,
            last_seen := now }) := by
  intro L
  induction L using List.reverseRecOn with
  | nil =>
    intro r
    exact ⟨fun _ => rfl, fun h => absurd rfl h⟩
  | append_singleton L' c ih =>
    intro r
    constructor
    · intro hnil
      rw [matching_append_single] at hnil
      obtain ⟨h1, h2⟩ := List.append_eq_nil.mp hnil
      have hc : ¬(c.orgnr = r.orgnr) := by
        intro hc
        rw [if_pos hc] at h2
        cases h2
      rw [applyAll_append_single, (ih r).1 h1]
      unfold updIf
      rw [if_neg (fun h => hc h.symm)]
    · intro hne
      rw [applyAll_append_single]
      by_cases hc : c.orgnr = r.orgnr
      · have hm' : matching (L' ++ [c]) r.orgnr = matching L' r.orgnr ++ [c] := by
          rw [matching_append_single, if_pos hc]
        by_cases h1 : matching L' r.orgnr = []
        · rw [(ih r).1 h1]
          unfold updIf
          rw [if_pos hc.symm, hm', h1, List.nil_append,
            show chainW [c] = Option.or c.website none from rfl,
            show chainE [c] = Option.or c.email none from rfl,
            Option.or_none, Option.or_none]
          rfl
        · rw [(ih r).2 h1]
          unfold updIf
          rw [if_pos hc.symm, hm', List.getLastD_concat, chainW_append_single,
            chainE_append_single, Option.or_assoc, Option.or_assoc]
          rfl
      · have hm' : matching (L' ++ [c]) r.orgnr = matching L' r.orgnr := by
          rw [matching_append_single, if_neg hc, List.append_nil]
        have h1 : matching L' r.orgnr ≠ [] := by
          rw [hm'] at hne
          exact hne
        rw [(ih r).2 h1]
        unfold updIf
        rw [if_neg (fun h => hc h.symm), hm']

theorem upsert_rows_char (t : Nat) :
    ∀ (L : List Company) (db : List Row), ∀ r ∈ upsert_companies db L t,
      matching L r.orgnr ≠ [] →
      (r.name = ((matching L r.orgnr).getLastD dummyCompany).name ∧
       r.municipality = ((matching L r.orgnr).getLastD dummyCompany).municipality ∧
       r.nace = ((matching L r.orgnr).getLastD dummyCompany).nace ∧
       r.source = ((matching L r.orgnr).getLastD dummyCompany).source ∧
       r.last_seen = t ∧
       (∃ w0, r.website = (chainW (matching L r.orgnr)).or w0) ∧
       (∃ e0, r.email = (chainE (matching L r.orgnr)).or e0)) := by
  intro L
  induction L using List.reverseRecOn with
  | nil =>
    intro db r _ hne
    exact absurd rfl hne
  | append_singleton L' c ih =>
    intro db r hr hne
    rw [upsert_companies_append_single] at hr
    unfold upsert1 at hr
    by_cases hkey : containsKey (upsert_companies db L' t) c.orgnr = true
    · rw [if_pos hkey] at hr
      obtain ⟨r', hr', hrr⟩ := List.mem_map.mp hr
      unfold updIf at hrr
      by_cases hco : r'.orgnr = c.orgnr
      · rw [if_pos hco] at hrr
        subst hrr
        have hor : (updatedRow r' c t).orgnr = r'.orgnr := rfl
        have hm' : matching (L' ++ [c]) (updatedRow r' c t).orgnr
            = matching L' r'.orgnr ++ [c] := by
          rw [hor, matching_append_single, if_pos hco.symm]
        rw [hm', List.getLastD_concat, chainW_append_single, chainE_append_single]
        by_cases h1 : matching L' r'.orgnr = []
        · rw [h1]
          refine ⟨rfl, rfl, rfl, rfl, rfl, ⟨r'.website, ?_⟩, ⟨r'.email, ?_⟩⟩
          · show c.website.or r'.website = (c.website.or (chainW [])).or r'.website
            rw [show chainW [] = none from rfl, Option.or_none]
          · show c.email.or r'.email = (c.email.or (chainE [])).or r'.email
            rw [show chainE [] = none from rfl, Option.or_none]
        · obtain ⟨_, _, _, _, _, ⟨w0, hw⟩, ⟨e0, he⟩⟩ := ih db r' hr' h1
          refine ⟨rfl, rfl, rfl, rfl, rfl, ⟨w0, ?_⟩, ⟨e0, ?_⟩⟩
          · show c.website.or r'.website = (c.website.or (chainW (matching L' r'.orgnr))).or w0
            rw [hw, Option.or_assoc]
          · show c.email.or r'.email = (c.email.or (chainE (matching L' r'.orgnr))).or e0
            rw [he, Option.or_assoc]
      · rw [if_neg hco] at hrr
        subst hrr
        have hm' : matching (L' ++ [c]) r'.orgnr = matching L' r'.orgnr := by
          rw [matching_append_single, if_neg (fun h => hco h.symm), List.append_nil]
        rw [hm'] at hne ⊢
        exact ih db r' hr' hne
    · rw [if_neg hkey] at hr
      rcases List.mem_append.mp hr with hr' | hr'
      · have hco : ¬(c.orgnr = r.orgnr) := by
          intro hc
          apply hkey
          rw [hc]
          exact List.any_eq_true.mpr ⟨r, hr', by simp⟩
        have hm' : matching (L' ++ [c]) r.orgnr = matching L' r.orgnr := by
          rw [matching_append_single, if_neg hco, List.append_nil]
        rw [hm'] at hne ⊢
        exact ih db r hr' hne
      · have hrn : r = newRow c t := List.mem_singleton.mp hr'
        subst hrn
        have hor : (newRow c t).orgnr = c.orgnr := rfl
        have h1 : matching L' c.orgnr = [] := by
          cases hM : matching L' c.orgnr with
          | nil => rfl
          | cons c' M' =>
            exfalso
            have hc' : c' ∈ matching L' c.orgnr := by rw [hM]; exact List.mem_cons_self _ _
            have hc'L : c' ∈ L' ∧ c'.orgnr = c.orgnr := by
              have := List.mem_filter.mp hc'
              exact ⟨this.1, by simpa using this.2⟩
            apply hkey
            rw [← hc'L.2]
            exact upsert_key_present t L' db c' hc'L.1
        have hm' : matching (L' ++ [c]) (newRow c t).orgnr = [c] := by
          rw [hor, matching_append_single, if_pos rfl, h1, List.nil_append]
        rw [hm']
        refine ⟨rfl, rfl, rfl, rfl, rfl, ⟨none, ?_⟩, ⟨none, ?_⟩⟩
        · show c.website = (chainW [c]).or none
          rw [Option.or_none, show chainW [c] = Option.or c.website none from rfl,
            Option.or_none]
        · show c.email = (chainE [c]).or none
          rw [Option.or_none, show chainE [c] = Option.or c.email none from rfl,
            Option.or_none]

/-- C8 (amended).  Re-running the upsert with the same record list
leaves the company table unchanged except for the last-observed
timestamp, which is refreshed to the second run's time: the row count is
unchanged, every row is unchanged once timestamps are ignored, and if
the two runs carry the same timestamp the table is literally unchanged.
The counterexample shows the claim as stated fails: a second run at a
later wall-clock second changes the `last_seen` field value. -/
theorem upsert_companies_idempotent (db : List Row) (L : List Company) (t1 t2 : Nat) :
    (upsert_companies (upsert_companies db L t1) L t2).length
      = (upsert_companies db L t1).length ∧
    (upsert_companies (upsert_companies db L t1) L t2).map zeroTs
      = (upsert_companies db L t1).map zeroTs ∧
    (t2 = t1 → upsert_companies (upsert_companies db L t1) L t2
      = upsert_companies db L t1) := by
  have hkeys : ∀ c ∈ L, containsKey (upsert_companies db L t1) c.orgnr = true :=
    fun c hc => upsert_key_present t1 L db c hc
  have hd2 : upsert_companies (upsert_companies db L t1) L t2
      = (upsert_companies db L t1).map (applyAll L t2) :=
    upsert_all_update t2 L (upsert_companies db L t1) hkeys
  have hfix : ∀ r ∈ upsert_companies db L t1,
      zeroTs (applyAll L t2 r) = zeroTs r ∧ (t2 = t1 → applyAll L t2 r = r) := by
    intro r hr
    by_cases hm : matching L r.orgnr = []
    · rw [(applyAll_char t2 L r).1 hm]
      exact ⟨rfl, fun _ => rfl⟩
    · obtain ⟨hn, hmu, hna, hso, hls, ⟨w0, hw⟩, ⟨e0, he⟩⟩ :=
        upsert_rows_char t1 L db r hr hm
      have hw2 : (chainW (matching L r.orgnr)).or r.website = r.website := by
        rw [hw, ← Option.or_assoc, Option.or_self]
      have he2 : (chainE (matching L r.orgnr)).or r.email = r.email := by
        rw [he, ← Option.or_assoc, Option.or_self]
      rw [(applyAll_char t2 L r).2 hm]
      constructor
      · unfold zeroTs
        rw [hw2, he2, ← hn, ← hmu, ← hna, ← hso]
      · intro ht
        rw [hw2, he2, ← hn, ← hmu, ← hna, ← hso, ht, ← hls]
  refine ⟨?_, ?_, ?_⟩
  · rw [hd2, List.length_map]
  · rw [hd2, List.map_map]
    exact List.map_congr_left (fun r hr => (hfix r hr).1)
  · intro ht
    rw [hd2]
    have hid : (upsert_companies db L t1).map (applyAll L t2)
        = (upsert_companies db L t1).map (fun r => r) :=
      List.map_congr_left (fun r hr => (hfix r hr).2 ht)
    rw [hid]
    exact List.map_id' _

/-- Counterexample to C8 as stated: two runs with identical record
inputs but successive clock readings disagree on the stored table — the
last-observed field value changes. -/
theorem upsert_companies_idempotent_cex :
    upsert_companies (upsert_companies [] [wComp] 0) [wComp] 1
      ≠ upsert_companies [] [wComp] 0 := by decide

/-- Witness for C8 (amended): with equal timestamps the second run
leaves the table literally unchanged. -/
theorem upsert_companies_idempotent_witness :
    upsert_companies (upsert_companies [] [wComp] 5) [wComp] 5
      = upsert_companies [] [wComp] 5 :=
  (upsert_companies_idempotent [] [wComp] 5 5).2.2 rfl

end B2B
